import Mathlib

/-!
Shallow embedding of the block-puzzle engine in `src/utils/gameLogic.ts`
(board constants from `src/constants.ts`, data types from `src/types.ts`),
together with proofs of the specified properties.

Modelling conventions:
* A grid cell is `Option String` (`none` = the TS `null` empty cell, `some c`
  = a fill tag / color string), mirroring `CellState = string | null`.
* A grid is a list of rows; the reference configuration is the 10×10 board
  (`BOARD_SIZE = 10`).  `wfGrid` states the N×N well-formedness invariant.
* Anchor positions carry `Int` coordinates, since the TS code is explicitly
  called with out-of-range (including negative) anchors.
* JS array reads out of range yield `undefined`; the engine only ever reads
  a cell after `isValidPos` has succeeded, so reads are modelled with `getD`
  defaults that are never reached on the validated path.
-/

def BOARD_SIZE : Nat := 10

abbrev CellState := Option String

abbrev GridType := List (List CellState)

abbrev ShapeDefinition := List (List Nat)

structure Position where
  r : Int
  c : Int
deriving DecidableEq, Repr

structure ShapeObj where
  id : String
  matrix : ShapeDefinition
  color : String
deriving DecidableEq, Repr

/-- Read cell `(r, c)` of a grid; out-of-range reads default to `none`
(the engine only reads after validating bounds). -/
def gridGet (g : GridType) (r c : Nat) : CellState :=
  (g.getD r []).getD c none

/-- `createEmptyGrid` from the source: a `BOARD_SIZE × BOARD_SIZE` grid of
`null` cells. -/
def createEmptyGrid : GridType :=
  List.replicate BOARD_SIZE (List.replicate BOARD_SIZE none)

/-- The N×N grid invariant: exactly `BOARD_SIZE` rows, each of length
`BOARD_SIZE`. -/
def wfGrid (g : GridType) : Bool :=
  g.length == BOARD_SIZE && g.all (fun row => row.length == BOARD_SIZE)

/-- `isValidPos` from the source. -/
def isValidPos (r c : Int) : Bool :=
  0 ≤ r && r < BOARD_SIZE && 0 ≤ c && c < BOARD_SIZE

/-- `canPlaceShape` from the source: every `1` cell of the shape must map,
offset by the anchor, to an in-bounds empty grid cell.  The bounds check
precedes the grid read, exactly as in the source. -/
def canPlaceShape (grid : GridType) (shape : ShapeDefinition) (pos : Position) : Bool :=
  (List.range shape.length).all fun r =>
    (List.range (shape.getD r []).length).all fun c =>
      if (shape.getD r []).getD c 0 == 1 then
        let boardR : Int := pos.r + r
        let boardC : Int := pos.c + c
        isValidPos boardR boardC && (gridGet grid boardR.toNat boardC.toNat).isNone
      else
        true

/-- `canShapeFitAnywhere` from the source: some anchor in the full
`BOARD_SIZE × BOARD_SIZE` anchor space admits the shape. -/
def canShapeFitAnywhere (grid : GridType) (shape : ShapeDefinition) : Bool :=
  (List.range BOARD_SIZE).any fun r =>
    (List.range BOARD_SIZE).any fun c =>
      canPlaceShape grid shape ⟨(r : Int), (c : Int)⟩

/-- C2 helper: the legality condition for one shape cell, spelled out. -/
theorem canPlaceShape_iff (grid : GridType) (shape : ShapeDefinition) (pos : Position) :
    canPlaceShape grid shape pos = true ↔
      ∀ r c, r < shape.length → c < (shape.getD r []).length →
        (shape.getD r []).getD c 0 = 1 →
          isValidPos (pos.r + r) (pos.c + c) = true ∧
            gridGet grid (pos.r + r).toNat (pos.c + c).toNat = none := by
  simp only [canPlaceShape, List.all_eq_true, List.mem_range]
  constructor
  · intro h r c hr hc hv
    have := h r hr c hc
    rw [hv] at this
    simp only [beq_self_eq_true, if_true, Bool.and_eq_true, Option.isNone_iff_eq_none] at this
    exact this
  · intro h r hr c hc
    by_cases hv : (shape.getD r []).getD c 0 = 1
    · have := h r c hr hc hv
      simp only [hv, beq_self_eq_true, if_true, Bool.and_eq_true, Option.isNone_iff_eq_none]
      exact this
    · simp only [beq_iff_eq, hv, if_false]

/-- `checkGameOver` from the source: an empty hand is never terminal;
otherwise the game is over when no shape of the hand fits anywhere.  The
source's early-exit loops over the anchor space are the `any` below. -/
def checkGameOver (grid : GridType) (shapes : List ShapeDefinition) : Bool :=
  if shapes.isEmpty then
    false
  else
    shapes.all fun shape =>
      ! (List.range BOARD_SIZE).any fun r =>
          (List.range BOARD_SIZE).any fun c =>
            canPlaceShape grid shape ⟨(r : Int), (c : Int)⟩

/-- C4: `checkGameOver` is true exactly when the hand is non-empty and no
shape of the hand has a legal anchor in the full N×N anchor space; in
particular `checkGameOver g [] = false` for every grid. -/
theorem checkGameOver_iff (grid : GridType) (shapes : List ShapeDefinition) :
    checkGameOver grid shapes = true ↔
      shapes ≠ [] ∧
        ∀ shape ∈ shapes, ∀ r < BOARD_SIZE, ∀ c < BOARD_SIZE,
          canPlaceShape grid shape ⟨(r : Int), (c : Int)⟩ = false := by
  cases shapes with
  | nil => simp [checkGameOver]
  | cons s ss =>
    simp only [checkGameOver, List.isEmpty_cons, Bool.false_eq_true, if_false,
      List.all_eq_true, Bool.not_eq_true', List.any_eq_false, Bool.not_eq_true,
      List.mem_range, ne_eq, reduceCtorEq, not_false_iff, true_and]

/-- `findClearedLines` from the source: indices of fully occupied rows and
columns (a cell is occupied when it is not `null`). -/
def findClearedLines (grid : GridType) : List Nat × List Nat :=
  let rowIndices := (List.range BOARD_SIZE).filter fun r =>
    (grid.getD r []).all fun cell => cell.isSome
  let colIndices := (List.range BOARD_SIZE).filter fun c =>
    (List.range BOARD_SIZE).all fun r => (gridGet grid r c).isSome
  (rowIndices, colIndices)

theorem wfGrid_row_length {g : GridType} (hw : wfGrid g = true) {r : Nat}
    (hr : r < BOARD_SIZE) : (g.getD r []).length = BOARD_SIZE := by
  simp only [wfGrid, Bool.and_eq_true, beq_iff_eq, List.all_eq_true] at hw
  have hrg : r < g.length := by omega
  have := hw.2 (g.getD r []) (by
    rw [List.getD_eq_getElem _ _ hrg]
    exact List.getElem_mem hrg)
  exact this

theorem row_all_iff {g : GridType} (hw : wfGrid g = true) {r : Nat}
    (hr : r < BOARD_SIZE) (p : CellState → Bool) :
    ((g.getD r []).all p = true) ↔ ∀ c < BOARD_SIZE, p (gridGet g r c) = true := by
  have hlen := wfGrid_row_length hw hr
  constructor
  · intro h c hc
    have hcl : c < (g.getD r []).length := by omega
    have hmem : (g.getD r []).getD c none ∈ g.getD r [] := by
      rw [List.getD_eq_getElem _ _ hcl]
      exact List.getElem_mem hcl
    exact List.all_eq_true.mp h _ hmem
  · intro h
    rw [List.all_eq_true]
    intro cell hcell
    obtain ⟨c, hcl, hcget⟩ := List.mem_iff_getElem.mp hcell
    have : gridGet g r c = cell := by
      unfold gridGet
      rw [List.getD_eq_getElem _ _ hcl]
      exact hcget
    rw [← this]
    exact h c (by omega)

/-- C6: on a well-formed N×N grid, `findClearedLines` returns exactly the
fully-`Filled` row indices and the fully-`Filled` column indices, each list
in strictly ascending order. -/
theorem findClearedLines_spec (g : GridType) (hw : wfGrid g = true) :
    (∀ r, r ∈ (findClearedLines g).1 ↔
        r < BOARD_SIZE ∧ ∀ c < BOARD_SIZE, (gridGet g r c).isSome = true) ∧
    (∀ c, c ∈ (findClearedLines g).2 ↔
        c < BOARD_SIZE ∧ ∀ r < BOARD_SIZE, (gridGet g r c).isSome = true) ∧
    (findClearedLines g).1.Sorted (· < ·) ∧ (findClearedLines g).2.Sorted (· < ·) := by
  refine ⟨?_, ?_, ?_, ?_⟩
  · intro r
    simp only [findClearedLines, List.mem_filter, List.mem_range]
    constructor
    · rintro ⟨hr, hall⟩
      exact ⟨hr, (row_all_iff hw hr _).mp hall⟩
    · rintro ⟨hr, hall⟩
      exact ⟨hr, (row_all_iff hw hr _).mpr hall⟩
  · intro c
    simp only [findClearedLines, List.mem_filter, List.mem_range, List.all_eq_true]
  · exact List.Sorted.filter _ (List.sorted_lt_range BOARD_SIZE)
  · exact List.Sorted.filter _ (List.sorted_lt_range BOARD_SIZE)

/-- Witness for C6 at the empty grid. -/
theorem findClearedLines_spec_witness :
    wfGrid createEmptyGrid = true ∧
      (∀ r, r ∈ (findClearedLines createEmptyGrid).1 ↔
          r < BOARD_SIZE ∧
            ∀ c < BOARD_SIZE, (gridGet createEmptyGrid r c).isSome = true) ∧
      (∀ c, c ∈ (findClearedLines createEmptyGrid).2 ↔
          c < BOARD_SIZE ∧
            ∀ r < BOARD_SIZE, (gridGet createEmptyGrid r c).isSome = true) ∧
      (findClearedLines createEmptyGrid).1.Sorted (· < ·) ∧
      (findClearedLines createEmptyGrid).2.Sorted (· < ·) :=
  ⟨by decide, findClearedLines_spec createEmptyGrid (by decide)⟩

/-- `getD` after `set`, as a single conditional. -/
theorem getD_set_ite {α : Type} (l : List α) (i j : Nat) (a d : α) :
    (l.set i a).getD j d = if i = j ∧ j < l.length then a else l.getD j d := by
  induction l generalizing i j with
  | nil => simp
  | cons x xs ih =>
    cases i with
    | zero =>
      cases j with
      | zero => simp
      | succ j => simp
    | succ i =>
      cases j with
      | zero => simp
      | succ j =>
        simp only [List.set_cons_succ, List.getD_cons_succ, ih, List.length_cons]
        by_cases h : i = j ∧ j < xs.length
        · rw [if_pos h, if_pos (by omega)]
        · rw [if_neg h, if_neg (by omega)]

/-- The single JS statement `newGrid[r][c] = v` on a well-formed grid
(`List.set` is a no-op out of range; all verified paths write in range). -/
def jsSetCell (g : GridType) (r c : Nat) (v : CellState) : GridType :=
  g.set r ((g.getD r []).set c v)

theorem wfGrid_iff (g : GridType) :
    wfGrid g = true ↔
      g.length = BOARD_SIZE ∧ ∀ r < BOARD_SIZE, (g.getD r []).length = BOARD_SIZE := by
  constructor
  · intro hw
    simp only [wfGrid, Bool.and_eq_true, beq_iff_eq, List.all_eq_true] at hw
    exact ⟨hw.1, fun r hr => wfGrid_row_length (by
      simp only [wfGrid, Bool.and_eq_true, beq_iff_eq, List.all_eq_true]
      exact hw) hr⟩
  · rintro ⟨hlen, hrow⟩
    simp only [wfGrid, Bool.and_eq_true, beq_iff_eq, List.all_eq_true]
    refine ⟨hlen, fun row hmem => ?_⟩
    obtain ⟨r, hrl, hrget⟩ := List.mem_iff_getElem.mp hmem
    have : g.getD r [] = row := by rw [List.getD_eq_getElem _ _ hrl]; exact hrget
    rw [← this]
    exact hrow r (by omega)

theorem wfGrid_jsSetCell {g : GridType} (hw : wfGrid g = true) (r c : Nat)
    (v : CellState) : wfGrid (jsSetCell g r c v) = true := by
  obtain ⟨hlen, hrow⟩ := (wfGrid_iff g).mp hw
  rw [wfGrid_iff]
  refine ⟨by simp [jsSetCell, hlen], fun r' hr' => ?_⟩
  simp only [jsSetCell, getD_set_ite]
  by_cases h : r = r' ∧ r' < g.length
  · rw [if_pos h, List.length_set]
    exact hrow r (by omega)
  · rw [if_neg h]
    exact hrow r' hr'

theorem gridGet_jsSetCell {g : GridType} (hw : wfGrid g = true) (r c : Nat)
    (v : CellState) {r' c' : Nat} (hr' : r' < BOARD_SIZE) (hc' : c' < BOARD_SIZE) :
    gridGet (jsSetCell g r c v) r' c' =
      if r = r' ∧ c = c' then v else gridGet g r' c' := by
  obtain ⟨hlen, hrow⟩ := (wfGrid_iff g).mp hw
  simp only [jsSetCell, gridGet, getD_set_ite]
  by_cases h1 : r = r' ∧ r' < g.length
  · rw [if_pos h1, getD_set_ite]
    have hrl : (g.getD r []).length = BOARD_SIZE := hrow r (by omega)
    by_cases h2 : c = c'
    · rw [if_pos ⟨h2, by omega⟩, if_pos ⟨h1.1, h2⟩]
    · rw [if_neg (by tauto), if_neg (by tauto), h1.1]
  · have : ¬ (r = r' ∧ c = c') := by
      intro hcon
      exact h1 ⟨hcon.1, by omega⟩
    rw [if_neg h1, if_neg this]

/-- A sequence of single-cell writes of the same value, in program order. -/
def applyWrites (g : GridType) (ps : List (Nat × Nat)) (v : CellState) : GridType :=
  ps.foldl (fun acc p => jsSetCell acc p.1 p.2 v) g

theorem wfGrid_applyWrites {g : GridType} (hw : wfGrid g = true)
    (ps : List (Nat × Nat)) (v : CellState) : wfGrid (applyWrites g ps v) = true := by
  induction ps generalizing g with
  | nil => exact hw
  | cons p ps ih => exact ih (wfGrid_jsSetCell hw p.1 p.2 v)

theorem gridGet_applyWrites {g : GridType} (hw : wfGrid g = true)
    (ps : List (Nat × Nat)) (v : CellState) {r' c' : Nat}
    (hr' : r' < BOARD_SIZE) (hc' : c' < BOARD_SIZE) :
    gridGet (applyWrites g ps v) r' c' =
      if (r', c') ∈ ps then v else gridGet g r' c' := by
  induction ps generalizing g with
  | nil => simp [applyWrites]
  | cons p ps ih =>
    have step : applyWrites g (p :: ps) v = applyWrites (jsSetCell g p.1 p.2 v) ps v := rfl
    rw [step, ih (wfGrid_jsSetCell hw p.1 p.2 v),
      gridGet_jsSetCell hw p.1 p.2 v hr' hc']
    by_cases h1 : (r', c') ∈ ps
    · simp [h1]
    · by_cases h2 : p.1 = r' ∧ p.2 = c'
      · have he : (r', c') = p := Prod.ext_iff.mpr ⟨h2.1.symm, h2.2.symm⟩
        simp [h1, h2, he]
      · have hne : ¬ (r', c') = p := by
          rw [Prod.ext_iff]
          tauto
        simp [h1, h2, hne]

/-- The writes performed by the row-clearing loop of `clearLines`. -/
def rowWrites (rowIndices : List Nat) : List (Nat × Nat) :=
  rowIndices.flatMap fun r => (List.range BOARD_SIZE).map fun c => (r, c)

/-- The writes performed by the column-clearing loop of `clearLines`. -/
def colWrites (colIndices : List Nat) : List (Nat × Nat) :=
  colIndices.flatMap fun c => (List.range BOARD_SIZE).map fun r => (r, c)

/-- `clearLines` from the source: empty every cell of the listed rows, then
every cell of the listed columns (the two loops of the source, in program
order, expressed as the corresponding write sequences). -/
def clearLines (grid : GridType) (rowIndices colIndices : List Nat) : GridType :=
  applyWrites (applyWrites grid (rowWrites rowIndices) none) (colWrites colIndices) none

/-- The column-then-row variant used to state the order-independence part of
the specification. -/
def clearLinesColsFirst (grid : GridType) (rowIndices colIndices : List Nat) : GridType :=
  applyWrites (applyWrites grid (colWrites colIndices) none) (rowWrites rowIndices) none

theorem mem_rowWrites {rowIndices : List Nat} {r c : Nat} (hc : c < BOARD_SIZE) :
    (r, c) ∈ rowWrites rowIndices ↔ r ∈ rowIndices := by
  simp only [rowWrites, List.mem_flatMap, List.mem_map, List.mem_range, Prod.mk.injEq]
  constructor
  · rintro ⟨a, ha, b, hb, hba, hbc⟩
    rwa [← hba]
  · intro h
    exact ⟨r, h, c, hc, rfl, rfl⟩

theorem mem_colWrites {colIndices : List Nat} {r c : Nat} (hr : r < BOARD_SIZE) :
    (r, c) ∈ colWrites colIndices ↔ c ∈ colIndices := by
  simp only [colWrites, List.mem_flatMap, List.mem_map, List.mem_range, Prod.mk.injEq]
  constructor
  · rintro ⟨a, ha, b, hb, hbr, hbc⟩
    rwa [← hbc]
  · intro h
    exact ⟨c, h, r, hr, rfl, rfl⟩

theorem grid_ext {g1 g2 : GridType} (h1 : wfGrid g1 = true) (h2 : wfGrid g2 = true)
    (h : ∀ r < BOARD_SIZE, ∀ c < BOARD_SIZE, gridGet g1 r c = gridGet g2 r c) :
    g1 = g2 := by
  obtain ⟨hl1, hr1⟩ := (wfGrid_iff g1).mp h1
  obtain ⟨hl2, hr2⟩ := (wfGrid_iff g2).mp h2
  apply List.ext_getElem (by omega)
  intro r hra hrb
  have hrB : r < BOARD_SIZE := by omega
  have hlen1 : g1[r].length = BOARD_SIZE := by
    have := hr1 r hrB
    rwa [List.getD_eq_getElem _ _ hra] at this
  have hlen2 : g2[r].length = BOARD_SIZE := by
    have := hr2 r hrB
    rwa [List.getD_eq_getElem _ _ hrb] at this
  apply List.ext_getElem (by omega)
  intro c hca hcb
  have hcB : c < BOARD_SIZE := by omega
  have e1 : gridGet g1 r c = g1[r][c] := by
    unfold gridGet
    rw [List.getD_eq_getElem _ _ hra, List.getD_eq_getElem _ _ hca]
  have e2 : gridGet g2 r c = g2[r][c] := by
    unfold gridGet
    rw [List.getD_eq_getElem _ _ hrb, List.getD_eq_getElem _ _ hcb]
  rw [← e1, ← e2]
  exact h r hrB c hcB

/-- C5: on a well-formed grid with in-range line indices, `clearLines`
empties exactly the cells of the listed rows and columns, leaves every other
cell as in the input, agrees with the column-then-row clearing order, and is
the identity on empty index lists. -/
theorem clearLines_spec (g : GridType) (rowIndices colIndices : List Nat)
    (hw : wfGrid g = true)
    (hrows : ∀ r ∈ rowIndices, r < BOARD_SIZE)
    (hcols : ∀ c ∈ colIndices, c < BOARD_SIZE) :
    (∀ r < BOARD_SIZE, ∀ c < BOARD_SIZE,
        gridGet (clearLines g rowIndices colIndices) r c =
          if r ∈ rowIndices ∨ c ∈ colIndices then none else gridGet g r c) ∧
    clearLines g rowIndices colIndices = clearLinesColsFirst g rowIndices colIndices ∧
    clearLines g [] [] = g := by
  have hpoint : ∀ r < BOARD_SIZE, ∀ c < BOARD_SIZE,
      gridGet (clearLines g rowIndices colIndices) r c =
        if r ∈ rowIndices ∨ c ∈ colIndices then none else gridGet g r c := by
    intro r hr c hc
    unfold clearLines
    rw [gridGet_applyWrites (wfGrid_applyWrites hw _ _) _ _ hr hc,
      gridGet_applyWrites hw _ _ hr hc]
    simp only [mem_rowWrites hc, mem_colWrites hr]
    by_cases h1 : c ∈ colIndices
    · simp [h1]
    · by_cases h2 : r ∈ rowIndices <;> simp [h1, h2]
  have hpoint' : ∀ r < BOARD_SIZE, ∀ c < BOARD_SIZE,
      gridGet (clearLinesColsFirst g rowIndices colIndices) r c =
        if r ∈ rowIndices ∨ c ∈ colIndices then none else gridGet g r c := by
    intro r hr c hc
    unfold clearLinesColsFirst
    rw [gridGet_applyWrites (wfGrid_applyWrites hw _ _) _ _ hr hc,
      gridGet_applyWrites hw _ _ hr hc]
    simp only [mem_rowWrites hc, mem_colWrites hr]
    by_cases h1 : c ∈ colIndices
    · simp [h1]
    · by_cases h2 : r ∈ rowIndices <;> simp [h1, h2]
  refine ⟨hpoint, ?_, rfl⟩
  apply grid_ext (wfGrid_applyWrites (wfGrid_applyWrites hw _ _) _ _)
    (wfGrid_applyWrites (wfGrid_applyWrites hw _ _) _ _)
  intro r hr c hc
  exact (hpoint r hr c hc).trans (hpoint' r hr c hc).symm

/-- Witness for C5: clearing row 0 and column 3 of the empty grid. -/
theorem clearLines_spec_witness :
    wfGrid createEmptyGrid = true ∧
      (∀ r ∈ [0], r < BOARD_SIZE) ∧ (∀ c ∈ [3], c < BOARD_SIZE) ∧
      ((∀ r < BOARD_SIZE, ∀ c < BOARD_SIZE,
          gridGet (clearLines createEmptyGrid [0] [3]) r c =
            if r ∈ [0] ∨ c ∈ [3] then none else gridGet createEmptyGrid r c) ∧
        clearLines createEmptyGrid [0] [3] =
          clearLinesColsFirst createEmptyGrid [0] [3] ∧
        clearLines createEmptyGrid [] [] = createEmptyGrid) :=
  ⟨by decide, by decide, by decide,
    clearLines_spec createEmptyGrid [0] [3] (by decide) (by decide) (by decide)⟩

/-- `rotateShapeMatrix` from the source: 90° clockwise rotation.  The source
builds a `cols × rows` zero matrix and writes
`newMatrix[c][rows - 1 - r] = matrix[r][c]`; solving for the target indices
gives the closed form below (`newMatrix[i][j] = matrix[rows - 1 - j][i]`). -/
def rotateShapeMatrix (matrix : ShapeDefinition) : ShapeDefinition :=
  let rows := matrix.length
  let cols := (matrix.getD 0 []).length
  (List.range cols).map fun i =>
    (List.range rows).map fun j => (matrix.getD (rows - 1 - j) []).getD i 0

/-- Entry `(i, j)` of a shape matrix (`0` out of range, as in the source's
zero-initialised target matrices). -/
def sEntry (m : ShapeDefinition) (i j : Nat) : Nat :=
  (m.getD i []).getD j 0

/-- A shape matrix with exactly `R` rows, each of length `C`. -/
def rectangular (m : ShapeDefinition) (R C : Nat) : Prop :=
  m.length = R ∧ ∀ i < R, (m.getD i []).length = C

theorem getD_map_range {α : Type} (n i : Nat) (f : Nat → α) (d : α) (h : i < n) :
    ((List.range n).map f).getD i d = f i := by
  rw [List.getD_eq_getElem _ _ (by simpa using h)]
  simp

theorem matrix_ext {α : Type} {m1 m2 : List (List α)} {R C : Nat} (d : α)
    (hl1 : m1.length = R) (hr1 : ∀ i < R, (m1.getD i []).length = C)
    (hl2 : m2.length = R) (hr2 : ∀ i < R, (m2.getD i []).length = C)
    (h : ∀ i < R, ∀ j < C, (m1.getD i []).getD j d = (m2.getD i []).getD j d) :
    m1 = m2 := by
  apply List.ext_getElem (by omega)
  intro i hia hib
  have hiR : i < R := by omega
  have hlen1 : m1[i].length = C := by
    have := hr1 i hiR
    rwa [List.getD_eq_getElem _ _ hia] at this
  have hlen2 : m2[i].length = C := by
    have := hr2 i hiR
    rwa [List.getD_eq_getElem _ _ hib] at this
  apply List.ext_getElem (by omega)
  intro j hja hjb
  have hjC : j < C := by omega
  have e1 : (m1.getD i []).getD j d = m1[i][j] := by
    rw [List.getD_eq_getElem _ _ hia, List.getD_eq_getElem _ _ hja]
  have e2 : (m2.getD i []).getD j d = m2[i][j] := by
    rw [List.getD_eq_getElem _ _ hib, List.getD_eq_getElem _ _ hjb]
  rw [← e1, ← e2]
  exact h i hiR j hjC

theorem rotate_rectangular {m : ShapeDefinition} {R C : Nat}
    (h : rectangular m R C) (hR : 1 ≤ R) :
    rectangular (rotateShapeMatrix m) C R := by
  obtain ⟨hlen, hrow⟩ := h
  have hc : (m.getD 0 []).length = C := hrow 0 (by omega)
  constructor
  · simp only [rotateShapeMatrix, List.length_map, List.length_range]
    exact hc
  · intro i hi
    simp only [rotateShapeMatrix]
    rw [getD_map_range _ _ _ _ (by rw [hc]; exact hi)]
    simp only [List.length_map, List.length_range]
    exact hlen

theorem rotate_entry {m : ShapeDefinition} {R C : Nat}
    (h : rectangular m R C) (hR : 1 ≤ R) {i j : Nat} (hi : i < C) (hj : j < R) :
    sEntry (rotateShapeMatrix m) i j = sEntry m (R - 1 - j) i := by
  obtain ⟨hlen, hrow⟩ := h
  have hc : (m.getD 0 []).length = C := hrow 0 (by omega)
  simp only [rotateShapeMatrix, sEntry, hc, hlen]
  rw [getD_map_range _ _ _ _ hi, getD_map_range _ _ _ _ hj]

/-- C9: rotation is a 4-cycle on rectangular shape matrices of size at least
1×1: four successive 90° clockwise rotations restore the original matrix
cell-for-cell. -/
theorem rotateShapeMatrix_four_cycle (m : ShapeDefinition)
    (hR : 1 ≤ m.length) (hC : 1 ≤ (m.getD 0 []).length)
    (hrows : ∀ row ∈ m, row.length = (m.getD 0 []).length) :
    rotateShapeMatrix (rotateShapeMatrix (rotateShapeMatrix (rotateShapeMatrix m))) = m := by
  set R := m.length with hRdef
  set C := (m.getD 0 []).length with hCdef
  have hrect : rectangular m R C := by
    refine ⟨rfl, fun i hi => ?_⟩
    have hil : i < m.length := hi
    have hmem : m.getD i [] ∈ m := by
      rw [List.getD_eq_getElem _ _ hil]
      exact List.getElem_mem hil
    exact hrows _ hmem
  have h1 := rotate_rectangular hrect hR
  have h2 := rotate_rectangular h1 (by omega)
  have h3 := rotate_rectangular h2 (by omega)
  have h4 := rotate_rectangular h3 (by omega)
  refine matrix_ext 0 h4.1 h4.2 hrect.1 hrect.2 ?_
  intro i hi j hj
  have e4 : sEntry (rotateShapeMatrix (rotateShapeMatrix (rotateShapeMatrix
      (rotateShapeMatrix m)))) i j = sEntry (rotateShapeMatrix (rotateShapeMatrix
      (rotateShapeMatrix m))) (C - 1 - j) i :=
    rotate_entry h3 (by omega) hi hj
  have e3 : sEntry (rotateShapeMatrix (rotateShapeMatrix (rotateShapeMatrix m)))
      (C - 1 - j) i = sEntry (rotateShapeMatrix (rotateShapeMatrix m))
      (R - 1 - i) (C - 1 - j) :=
    rotate_entry h2 (by omega) (by omega) hi
  have e2 : sEntry (rotateShapeMatrix (rotateShapeMatrix m)) (R - 1 - i) (C - 1 - j) =
      sEntry (rotateShapeMatrix m) (C - 1 - (C - 1 - j)) (R - 1 - i) :=
    rotate_entry h1 (by omega) (by omega) (by omega)
  have e1 : sEntry (rotateShapeMatrix m) (C - 1 - (C - 1 - j)) (R - 1 - i) =
      sEntry m (R - 1 - (R - 1 - i)) (C - 1 - (C - 1 - j)) :=
    rotate_entry hrect (by omega) (by omega) (by omega)
  have efix : sEntry m (R - 1 - (R - 1 - i)) (C - 1 - (C - 1 - j)) = sEntry m i j := by
    have hi' : R - 1 - (R - 1 - i) = i := by omega
    have hj' : C - 1 - (C - 1 - j) = j := by omega
    rw [hi', hj']
  have := (((e4.trans e3).trans e2).trans e1).trans efix
  exact this

/-- Witness for C9 on a small L-shaped matrix. -/
theorem rotateShapeMatrix_four_cycle_witness :
    1 ≤ ([[1, 0], [1, 1]] : ShapeDefinition).length ∧
      1 ≤ (([[1, 0], [1, 1]] : ShapeDefinition).getD 0 []).length ∧
      (∀ row ∈ ([[1, 0], [1, 1]] : ShapeDefinition),
        row.length = (([[1, 0], [1, 1]] : ShapeDefinition).getD 0 []).length) ∧
      rotateShapeMatrix (rotateShapeMatrix (rotateShapeMatrix
        (rotateShapeMatrix [[1, 0], [1, 1]]))) = [[1, 0], [1, 1]] :=
  ⟨by decide, by decide, by decide,
    rotateShapeMatrix_four_cycle [[1, 0], [1, 1]] (by decide) (by decide) (by decide)⟩

/-- The `(r, c)` offsets of the `1` cells of a shape, in the placement
loop's iteration order. -/
def shapeCells (s : ShapeDefinition) : List (Nat × Nat) :=
  (List.range s.length).flatMap fun r =>
    (List.range (s.getD r []).length).filterMap fun c =>
      if (s.getD r []).getD c 0 == 1 then some (r, c) else none

/-- The board cells written by the placement loop (`boardR`, `boardC`). -/
def stampWrites (s : ShapeDefinition) (pos : Position) : List (Nat × Nat) :=
  (shapeCells s).map fun q => ((pos.r + q.1).toNat, (pos.c + q.2).toNat)

/-- `placeShapeOnGrid` from the source.  The source copies the grid and runs
`newGrid[boardR][boardC] = color` over the shape's `1` cells without any
validation.  In JS, a `boardR` outside `[0, grid.length)` makes
`newGrid[boardR]` `undefined` and the assignment throws a `TypeError`, so
those placements are modelled as `Except.error` (the partially written copy
is discarded by the exception, hence checking up front is observationally
equivalent).  All in-range writes are performed verbatim; an in-range row
with an out-of-range column leaves the modelled N×N board unchanged (JS
writes outside the board's columns are never read back by the engine). -/
def placeShapeOnGrid (grid : GridType) (shape : ShapeDefinition) (pos : Position)
    (color : String) : Except Unit GridType :=
  if (shapeCells shape).all
      (fun q => 0 ≤ pos.r + q.1 && pos.r + q.1 < (grid.length : Int)) then
    Except.ok (applyWrites grid (stampWrites shape pos) (some color))
  else
    Except.error ()

/-- Board cell `(r, c)` is covered by a `1` cell of the shape placed at
`pos`. -/
def covers (s : ShapeDefinition) (pos : Position) (r c : Nat) : Bool :=
  (shapeCells s).any fun q => pos.r + q.1 == (r : Int) && pos.c + q.2 == (c : Int)

theorem mem_shapeCells {s : ShapeDefinition} {q : Nat × Nat} :
    q ∈ shapeCells s ↔
      q.1 < s.length ∧ q.2 < (s.getD q.1 []).length ∧ (s.getD q.1 []).getD q.2 0 = 1 := by
  simp only [shapeCells, List.mem_flatMap, List.mem_filterMap, List.mem_range]
  constructor
  · rintro ⟨r, hr, c, hc, hif⟩
    by_cases hv : (s.getD r []).getD c 0 == 1
    · rw [if_pos hv] at hif
      obtain rfl : (r, c) = q := Option.some_injective _ hif
      exact ⟨hr, hc, by simpa using hv⟩
    · rw [if_neg hv] at hif
      exact absurd hif (by simp)
  · rintro ⟨h1, h2, h3⟩
    refine ⟨q.1, h1, q.2, h2, ?_⟩
    rw [if_pos (by simpa using h3)]

theorem canPlaceShape_valid {g : GridType} {s : ShapeDefinition} {pos : Position}
    (h : canPlaceShape g s pos = true) :
    ∀ q ∈ shapeCells s,
      isValidPos (pos.r + q.1) (pos.c + q.2) = true ∧
        gridGet g (pos.r + q.1).toNat (pos.c + q.2).toNat = none := by
  intro q hq
  obtain ⟨h1, h2, h3⟩ := mem_shapeCells.mp hq
  exact (canPlaceShape_iff g s pos).mp h q.1 q.2 h1 h2 h3

theorem mem_stampWrites {s : ShapeDefinition} {pos : Position} {r c : Nat}
    (hin : ∀ q ∈ shapeCells s, isValidPos (pos.r + q.1) (pos.c + q.2) = true) :
    ((r, c) ∈ stampWrites s pos) ↔ covers s pos r c = true := by
  simp only [stampWrites, covers, List.mem_map, List.any_eq_true]
  constructor
  · rintro ⟨q, hq, heq⟩
    refine ⟨q, hq, ?_⟩
    have hv := hin q hq
    simp only [isValidPos, Bool.and_eq_true, decide_eq_true_eq] at hv
    have h1 : (pos.r + q.1).toNat = r := congrArg Prod.fst heq
    have h2 : (pos.c + q.2).toNat = c := congrArg Prod.snd heq
    simp only [Bool.and_eq_true, beq_iff_eq]
    omega
  · rintro ⟨q, hq, heq⟩
    have hv := hin q hq
    simp only [isValidPos, Bool.and_eq_true, decide_eq_true_eq] at hv
    simp only [Bool.and_eq_true, beq_iff_eq] at heq
    refine ⟨q, hq, ?_⟩
    have e1 : (pos.r + q.1).toNat = r := by omega
    have e2 : (pos.c + q.2).toNat = c := by omega
    rw [e1, e2]

theorem place_ok_core {g : GridType} {s : ShapeDefinition} {pos : Position}
    (color : String) (hw : wfGrid g = true)
    (hin : ∀ q ∈ shapeCells s, isValidPos (pos.r + q.1) (pos.c + q.2) = true) :
    placeShapeOnGrid g s pos color =
      Except.ok (applyWrites g (stampWrites s pos) (some color)) := by
  unfold placeShapeOnGrid
  rw [if_pos]
  rw [List.all_eq_true]
  intro q hq
  have hv := hin q hq
  simp only [isValidPos, Bool.and_eq_true, decide_eq_true_eq] at hv
  have hlen : g.length = BOARD_SIZE := ((wfGrid_iff g).mp hw).1
  simp only [Bool.and_eq_true, decide_eq_true_eq]
  constructor
  · omega
  · rw [hlen]
    omega

theorem gridGet_stamp {g : GridType} {s : ShapeDefinition} {pos : Position}
    (color : String) (hw : wfGrid g = true)
    (hin : ∀ q ∈ shapeCells s, isValidPos (pos.r + q.1) (pos.c + q.2) = true)
    {r c : Nat} (hr : r < BOARD_SIZE) (hc : c < BOARD_SIZE) :
    gridGet (applyWrites g (stampWrites s pos) (some color)) r c =
      if covers s pos r c = true then some color else gridGet g r c := by
  rw [gridGet_applyWrites hw _ _ hr hc]
  by_cases h : covers s pos r c = true
  · rw [if_pos ((mem_stampWrites hin).mpr h), if_pos h]
  · rw [if_neg (fun hm => h ((mem_stampWrites hin).mp hm)), if_neg h]

/-- C7: a validated placement succeeds and returns a well-formed grid whose
covered cells hold the fill tag and whose remaining cells equal the input
grid's (the input grid itself is a pure value here, so copy-on-write
non-destruction is inherent to the model). -/
theorem placeShapeOnGrid_spec (g : GridType) (s : ShapeDefinition) (pos : Position)
    (color : String) (hw : wfGrid g = true) (hcan : canPlaceShape g s pos = true) :
    ∃ g', placeShapeOnGrid g s pos color = Except.ok g' ∧ wfGrid g' = true ∧
      ∀ r < BOARD_SIZE, ∀ c < BOARD_SIZE,
        gridGet g' r c = if covers s pos r c = true then some color else gridGet g r c := by
  have hin : ∀ q ∈ shapeCells s, isValidPos (pos.r + q.1) (pos.c + q.2) = true :=
    fun q hq => (canPlaceShape_valid hcan q hq).1
  exact ⟨_, place_ok_core color hw hin, wfGrid_applyWrites hw _ _,
    fun r hr c hc => gridGet_stamp color hw hin hr hc⟩

/-- Witness for C7: a domino placed at (2, 3) on the empty grid. -/
theorem placeShapeOnGrid_spec_witness :
    wfGrid createEmptyGrid = true ∧
      canPlaceShape createEmptyGrid [[1, 1]] ⟨2, 3⟩ = true ∧
      ∃ g', placeShapeOnGrid createEmptyGrid [[1, 1]] ⟨2, 3⟩ "#3b82f6" = Except.ok g' ∧
        wfGrid g' = true ∧
        ∀ r < BOARD_SIZE, ∀ c < BOARD_SIZE,
          gridGet g' r c =
            if covers [[1, 1]] ⟨2, 3⟩ r c = true then some "#3b82f6"
            else gridGet createEmptyGrid r c :=
  ⟨by decide, by decide,
    placeShapeOnGrid_spec createEmptyGrid [[1, 1]] ⟨2, 3⟩ "#3b82f6" (by decide) (by decide)⟩

/-- C8 counterexample: the executor does *not* complete without error on
every invalid placement.  A `1×1` shape anchored at row `-1` maps its cell
to board row `-1`; the source's `newGrid[boardR][boardC] = color` then
assigns a property of `undefined` and throws a `TypeError`, modelled as
`Except.error`. -/
theorem placeShapeOnGrid_oob_error :
    placeShapeOnGrid createEmptyGrid [[1]] ⟨-1, 0⟩ "#ef4444" = Except.error () := by
  rfl

/-- C8 amended: an invalid placement whose `1` cells still map inside the
board (i.e. invalid only by overlap) completes without reporting any error
and silently overwrites the targeted cells; only placements that map a `1`
cell to an out-of-range row throw. -/
theorem placeShapeOnGrid_invalid_silent (g : GridType) (s : ShapeDefinition)
    (pos : Position) (color : String) (hw : wfGrid g = true)
    (hcan : canPlaceShape g s pos = false)
    (hin : ∀ q ∈ shapeCells s, isValidPos (pos.r + q.1) (pos.c + q.2) = true) :
    ∃ g', placeShapeOnGrid g s pos color = Except.ok g' ∧
      ∀ r < BOARD_SIZE, ∀ c < BOARD_SIZE,
        gridGet g' r c = if covers s pos r c = true then some color else gridGet g r c :=
  ⟨_, place_ok_core color hw hin, fun r hr c hc => gridGet_stamp color hw hin hr hc⟩

/-- Witness for the amended C8: a `1×1` shape placed onto an already
occupied cell (invalid by overlap, all cells in bounds) overwrites it. -/
theorem placeShapeOnGrid_invalid_silent_witness :
    wfGrid (jsSetCell createEmptyGrid 0 0 (some "#eab308")) = true ∧
      canPlaceShape (jsSetCell createEmptyGrid 0 0 (some "#eab308")) [[1]] ⟨0, 0⟩ = false ∧
      (∀ q ∈ shapeCells [[1]],
        isValidPos ((0 : Int) + q.1) ((0 : Int) + q.2) = true) ∧
      ∃ g', placeShapeOnGrid (jsSetCell createEmptyGrid 0 0 (some "#eab308"))
          [[1]] ⟨0, 0⟩ "#22c55e" = Except.ok g' ∧
        ∀ r < BOARD_SIZE, ∀ c < BOARD_SIZE,
          gridGet g' r c =
            if covers [[1]] ⟨0, 0⟩ r c = true then some "#22c55e"
            else gridGet (jsSetCell createEmptyGrid 0 0 (some "#eab308")) r c :=
  ⟨by decide, by decide, by decide,
    placeShapeOnGrid_invalid_silent (jsSetCell createEmptyGrid 0 0 (some "#eab308"))
      [[1]] ⟨0, 0⟩ "#22c55e" (by decide) (by decide) (by decide)⟩

/-- C2: `canPlaceShape` returns true iff every `1` cell of the shape maps to
an in-bounds, empty board cell; it is total, returning false (never
throwing) for anchors arbitrarily outside the board. -/
theorem canPlaceShape_spec (grid : GridType) (shape : ShapeDefinition) (pos : Position) :
    canPlaceShape grid shape pos = true ↔
      ∀ r c, r < shape.length → c < (shape.getD r []).length →
        (shape.getD r []).getD c 0 = 1 →
          isValidPos (pos.r + r) (pos.c + c) = true ∧
            gridGet grid (pos.r + r).toNat (pos.c + c).toNat = none :=
  canPlaceShape_iff grid shape pos

/-- Placeholder piece used for indexed access, never dereferenced on the
verified paths (indices are always in range there). -/
def defShapeObj : ShapeObj :=
  { id := "", matrix := [], color := "" }

/-- `matrix.flat().reduce((a, b) => a + b, 0)` from the source: number of
blocks in a shape. -/
def shapeBlocks (s : ShapeDefinition) : Nat :=
  s.flatten.sum

structure Move where
  shapeIdx : Nat
  r : Nat
  c : Nat
deriving DecidableEq, Repr

/-- The score `findBestMove` assigns to placing piece `sh` at `(r, c)`:
lines cleared on the simulated post-placement grid weigh 20, blocks in the
piece weigh 1.  The simulated grid is the successful result of
`placeShapeOnGrid` (see `place_ok_core`). -/
def moveScore (g : GridType) (sh : ShapeObj) (r c : Nat) : Nat :=
  let temp := applyWrites g (stampWrites sh.matrix ⟨(r : Int), (c : Int)⟩) (some sh.color)
  let cleared := findClearedLines temp
  (cleared.1.length + cleared.2.length) * 20 + shapeBlocks sh.matrix

def mScore (g : GridType) (shapes : List ShapeObj) (m : Move) : Nat :=
  moveScore g (shapes.getD m.shapeIdx defShapeObj) m.r m.c

/-- All legal `(piece, anchor)` candidates, in the source's enumeration
order: piece index ascending, then row-major anchor scan. -/
def legalMoves (g : GridType) (shapes : List ShapeObj) : List Move :=
  (List.range shapes.length).flatMap fun i =>
    (List.range BOARD_SIZE).flatMap fun r =>
      (List.range BOARD_SIZE).filterMap fun c =>
        if canPlaceShape g (shapes.getD i defShapeObj).matrix
            ⟨((r : Nat) : Int), ((c : Nat) : Int)⟩
        then some (Move.mk i r c) else none

/-- The accumulator update of `findBestMove`: strict improvement over the
best score seen so far (initially `-1`). -/
def bestStep (g : GridType) (shapes : List ShapeObj) :
    Int × Option Move → Move → Int × Option Move :=
  fun acc m =>
    if (mScore g shapes m : Int) > acc.1 then ((mScore g shapes m : Int), some m) else acc

/-- `findBestMove` from the source: triple nested loop (pieces, rows,
columns), keeping the first strictly-better candidate. -/
def findBestMove (g : GridType) (shapes : List ShapeObj) : Option Move :=
  ((List.range shapes.length).foldl (fun acc (i : Nat) =>
    (List.range BOARD_SIZE).foldl (fun acc (r : Nat) =>
      (List.range BOARD_SIZE).foldl (fun acc (c : Nat) =>
        if canPlaceShape g (shapes.getD i defShapeObj).matrix
            ⟨((r : Nat) : Int), ((c : Nat) : Int)⟩
        then bestStep g shapes acc (Move.mk i r c)
        else acc) acc) acc) ((-1 : Int), (none : Option Move))).2

theorem foldl_flatMap {α β γ : Type} (l : List α) (f : α → List β) (g : γ → β → γ)
    (init : γ) :
    (l.flatMap f).foldl g init = l.foldl (fun acc x => (f x).foldl g acc) init := by
  induction l generalizing init with
  | nil => rfl
  | cons x xs ih => rw [List.flatMap_cons, List.foldl_append, List.foldl_cons, ih]

theorem foldl_filterMap_if {α β γ : Type} (l : List α) (p : α → Bool) (f : α → β)
    (g : γ → β → γ) (init : γ) :
    (l.filterMap fun x => if p x then some (f x) else none).foldl g init =
      l.foldl (fun acc x => if p x then g acc (f x) else acc) init := by
  induction l generalizing init with
  | nil => rfl
  | cons x xs ih =>
    rw [List.filterMap_cons]
    by_cases h : p x
    · simp only [h, if_true, List.foldl_cons, ih]
    · simp only [h, Bool.false_eq_true, if_false, List.foldl_cons, ih]

theorem findBestMove_eq (g : GridType) (shapes : List ShapeObj) :
    findBestMove g shapes =
      ((legalMoves g shapes).foldl (bestStep g shapes) ((-1 : Int), none)).2 := by
  unfold findBestMove legalMoves
  simp only [foldl_flatMap, foldl_filterMap_if]

theorem mem_legalMoves {g : GridType} {shapes : List ShapeObj} {m : Move} :
    m ∈ legalMoves g shapes ↔
      m.shapeIdx < shapes.length ∧ m.r < BOARD_SIZE ∧ m.c < BOARD_SIZE ∧
        canPlaceShape g (shapes.getD m.shapeIdx defShapeObj).matrix
          ⟨(m.r : Int), (m.c : Int)⟩ = true := by
  obtain ⟨i, r, c⟩ := m
  simp only [legalMoves, List.mem_flatMap, List.mem_filterMap, List.mem_range]
  constructor
  · rintro ⟨i', hi', r', hr', c', hc', hif⟩
    by_cases hp : canPlaceShape g (shapes.getD i' defShapeObj).matrix
        ⟨(r' : Int), (c' : Int)⟩
    · rw [if_pos hp] at hif
      obtain ⟨rfl, rfl, rfl⟩ : i' = i ∧ r' = r ∧ c' = c := by
        have := Option.some_injective _ hif
        exact ⟨congrArg Move.shapeIdx this, congrArg Move.r this, congrArg Move.c this⟩
      exact ⟨hi', hr', hc', hp⟩
    · rw [if_neg hp] at hif
      exact absurd hif (by simp)
  · rintro ⟨h1, h2, h3, h4⟩
    exact ⟨i, h1, r, h2, c, h3, by rw [if_pos h4]⟩

theorem bestFold_spec (g : GridType) (shapes : List ShapeObj) :
    ∀ (l : List Move) (b : Int) (om : Option Move),
      (l.foldl (bestStep g shapes) (b, om) = (b, om) ∧
          ∀ x ∈ l, (mScore g shapes x : Int) ≤ b) ∨
        (∃ m l₁ l₂,
          l.foldl (bestStep g shapes) (b, om) = ((mScore g shapes m : Int), some m) ∧
          l = l₁ ++ m :: l₂ ∧ b < (mScore g shapes m : Int) ∧
          (∀ x ∈ l₁, mScore g shapes x < mScore g shapes m) ∧
          (∀ x ∈ l₂, mScore g shapes x ≤ mScore g shapes m)) := by
  intro l
  induction l with
  | nil =>
    intro b om
    left
    exact ⟨rfl, by simp⟩
  | cons x xs ih =>
    intro b om
    rw [List.foldl_cons]
    by_cases hx : (mScore g shapes x : Int) > b
    · rw [show bestStep g shapes (b, om) x = ((mScore g shapes x : Int), some x) by
        simp only [bestStep, if_pos hx]]
      rcases ih ((mScore g shapes x : Int)) (some x) with
        ⟨heq, hall⟩ | ⟨m, l₁, l₂, heq, hsplit, hlt, hpre, hpost⟩
      · right
        refine ⟨x, [], xs, heq, rfl, hx, by simp, ?_⟩
        intro y hy
        have := hall y hy
        omega
      · right
        refine ⟨m, x :: l₁, l₂, heq, by rw [hsplit]; rfl, by omega, ?_, hpost⟩
        intro y hy
        rcases List.mem_cons.mp hy with rfl | hy2
        · omega
        · exact hpre y hy2
    · rw [show bestStep g shapes (b, om) x = (b, om) by
        simp only [bestStep, if_neg hx]]
      rcases ih b om with ⟨heq, hall⟩ | ⟨m, l₁, l₂, heq, hsplit, hlt, hpre, hpost⟩
      · left
        refine ⟨heq, fun y hy => ?_⟩
        rcases List.mem_cons.mp hy with rfl | hy2
        · omega
        · exact hall y hy2
      · right
        refine ⟨m, x :: l₁, l₂, heq, by rw [hsplit]; rfl, hlt, ?_, hpost⟩
        intro y hy
        rcases List.mem_cons.mp hy with rfl | hy2
        · omega
        · exact hpre y hy2

/-- C3: `findBestMove` enumerates exactly the legal `(piece, anchor)` pairs
(piece index ascending, then row-major anchors), scores each candidate with
`mScore` (lines cleared on the simulated grid × 20 + blocks in the piece),
returns `none` exactly when no legal placement exists, and otherwise returns
the maximum-scoring candidate, ties broken by first position in enumeration
order (every strictly earlier candidate scores strictly less, every later
candidate scores no more). -/
theorem findBestMove_spec (g : GridType) (shapes : List ShapeObj) :
    (∀ m : Move, m ∈ legalMoves g shapes ↔
        m.shapeIdx < shapes.length ∧ m.r < BOARD_SIZE ∧ m.c < BOARD_SIZE ∧
          canPlaceShape g (shapes.getD m.shapeIdx defShapeObj).matrix
            ⟨(m.r : Int), (m.c : Int)⟩ = true) ∧
    (findBestMove g shapes = none ↔ legalMoves g shapes = []) ∧
    (∀ m, findBestMove g shapes = some m →
      ∃ l₁ l₂, legalMoves g shapes = l₁ ++ m :: l₂ ∧
        (∀ x ∈ l₁, mScore g shapes x < mScore g shapes m) ∧
        (∀ x ∈ l₂, mScore g shapes x ≤ mScore g shapes m)) := by
  refine ⟨fun m => mem_legalMoves, ?_, ?_⟩
  · rw [findBestMove_eq]
    rcases bestFold_spec g shapes (legalMoves g shapes) (-1) none with
      ⟨heq, hall⟩ | ⟨m, l₁, l₂, heq, hsplit, hlt, hpre, hpost⟩
    · rw [heq]
      simp only [true_iff]
      rcases hne : legalMoves g shapes with _ | ⟨x, xs⟩
      · rfl
      · exfalso
        have hx : x ∈ legalMoves g shapes := by rw [hne]; exact List.mem_cons_self x xs
        have := hall x hx
        omega
    · rw [heq]
      simp only [reduceCtorEq, false_iff]
      rw [hsplit]
      simp
  · intro m hm
    rw [findBestMove_eq] at hm
    rcases bestFold_spec g shapes (legalMoves g shapes) (-1) none with
      ⟨heq, hall⟩ | ⟨m', l₁, l₂, heq, hsplit, hlt, hpre, hpost⟩
    · rw [heq] at hm
      exact absurd hm (by simp)
    · rw [heq] at hm
      obtain rfl : m' = m := Option.some_injective _ hm
      exact ⟨l₁, l₂, hsplit, hpre, hpost⟩

/-- C10: a non-null hint from `findBestMove` always designates an in-range
piece index and a placement that `canPlaceShape` accepts on the given
grid. -/
theorem findBestMove_legal (g : GridType) (shapes : List ShapeObj) (m : Move)
    (hm : findBestMove g shapes = some m) :
    m.shapeIdx < shapes.length ∧
      canPlaceShape g (shapes.getD m.shapeIdx defShapeObj).matrix
        ⟨(m.r : Int), (m.c : Int)⟩ = true := by
  rw [findBestMove_eq] at hm
  rcases bestFold_spec g shapes (legalMoves g shapes) (-1) none with
    ⟨heq, hall⟩ | ⟨m', l₁, l₂, heq, hsplit, hlt, hpre, hpost⟩
  · rw [heq] at hm
    exact absurd hm (by simp)
  · rw [heq] at hm
    have hm2 : m' = m := Option.some_injective _ hm
    have hmem : m ∈ legalMoves g shapes := by
      rw [hsplit, ← hm2]
      exact List.mem_append_right _ (List.mem_cons_self m' l₂)
    have hfacts := mem_legalMoves.mp hmem
    exact ⟨hfacts.1, hfacts.2.2.2⟩

set_option maxRecDepth 100000 in
/-- Witness for C10: a single 1×1 piece on the empty grid is hinted at the
origin, a legal placement. -/
theorem findBestMove_legal_witness :
    findBestMove createEmptyGrid [⟨"p", [[1]], "#ef4444"⟩] = some (Move.mk 0 0 0) ∧
      (Move.mk 0 0 0).shapeIdx < ([⟨"p", [[1]], "#ef4444"⟩] : List ShapeObj).length ∧
        canPlaceShape createEmptyGrid
          (([⟨"p", [[1]], "#ef4444"⟩] : List ShapeObj).getD
            (Move.mk 0 0 0).shapeIdx defShapeObj).matrix
          ⟨((Move.mk 0 0 0).r : Int), ((Move.mk 0 0 0).c : Int)⟩ = true :=
  ⟨by decide, findBestMove_legal createEmptyGrid [⟨"p", [[1]], "#ef4444"⟩]
    (Move.mk 0 0 0) (by decide)⟩

/-- `SHAPE_COLORS` from `src/constants.ts`. -/
def SHAPE_COLORS : List String :=
  [ "#ef4444", "#f97316", "#eab308", "#22c55e",
    "#06b6d4", "#3b82f6", "#a855f7", "#ec4899" ]

/-- `SHAPES_TIER_1` from `src/constants.ts`. -/
def SHAPES_TIER_1 : List ShapeDefinition :=
  [ [[1]], [[1, 1]], [[1], [1]], [[1, 1], [1, 1]],
    [[1, 0], [1, 1]], [[0, 1], [1, 1]], [[1, 1], [1, 0]], [[1, 1], [0, 1]],
    [[1, 1, 1]], [[1], [1], [1]] ]

/-- `SHAPES_TIER_2` from `src/constants.ts`. -/
def SHAPES_TIER_2 : List ShapeDefinition :=
  [ [[1, 1, 1, 1]], [[1], [1], [1], [1]], [[1, 1, 1], [1, 1, 1]],
    [[1, 0, 0], [1, 0, 0], [1, 1, 1]], [[0, 0, 1], [0, 0, 1], [1, 1, 1]],
    [[1, 1, 1], [1, 0, 0], [1, 0, 0]], [[1, 1, 1], [0, 0, 1], [0, 0, 1]] ]

/-- `SHAPES_TIER_3` from `src/constants.ts`. -/
def SHAPES_TIER_3 : List ShapeDefinition :=
  [ [[1, 1, 1, 1, 1]], [[1], [1], [1], [1], [1]],
    [[1, 1, 1], [0, 1, 0]], [[0, 1, 0], [1, 1, 1]],
    [[1, 0], [1, 1], [1, 0]], [[0, 1], [1, 1], [0, 1]],
    [[1, 1, 0], [0, 1, 1]], [[0, 1, 1], [1, 1, 0]],
    [[1, 0], [1, 1], [0, 1]], [[0, 1], [1, 1], [1, 0]] ]

/-- `Math.floor(q * n)` for a PRNG draw `q ∈ [0, 1)` used to pick an index
below `n`. -/
def randFloor (q : ℚ) (n : Nat) : Nat :=
  (q * n).floor.toNat

/-- `createShape` from the generator: an id derived from one PRNG draw
(`Math.random().toString(36).substr(2, 9)`, opaque to the engine and
modelled by printing the draw), the given matrix, and a palette color from a
second draw. -/
def createShape (idDraw colorDraw : ℚ) (matrix : ShapeDefinition) : ShapeObj :=
  { id := toString idDraw
    matrix := matrix
    color := SHAPE_COLORS.getD (randFloor colorDraw SHAPE_COLORS.length) "" }

/-- The score-dependent tier probabilities `(w1, w2, w3)` of the generator
(`w3` is assigned but never read by the source, the third branch of the tier
choice being the default). -/
def tierWeights (currentScore : Nat) : ℚ × ℚ × ℚ :=
  if currentScore < 2000 then ((7 : ℚ) / 10, (3 : ℚ) / 10, 0)
  else if currentScore < 10000 then ((4 : ℚ) / 10, (4 : ℚ) / 10, (2 : ℚ) / 10)
  else ((3 : ℚ) / 10, (4 : ℚ) / 10, (3 : ℚ) / 10)

/-- `getWeightedTier` from the generator. -/
def getWeightedTier (w1 w2 : ℚ) (r : ℚ) : List ShapeDefinition :=
  if r < w1 then SHAPES_TIER_1
  else if r < w1 + w2 then SHAPES_TIER_2
  else SHAPES_TIER_3

/-- The JS destructuring swap `[a[i], a[j]] = [a[j], a[i]]` of the
Fisher-Yates loop. -/
def listSwap (l : List ShapeObj) (i j : Nat) : List ShapeObj :=
  (l.set i (l.getD j defShapeObj)).set j (l.getD i defShapeObj)

/-- The generator's board scan: some row contains a `null` cell. -/
def hasEmptyCellB (grid : GridType) : Bool :=
  (List.range BOARD_SIZE).any fun r =>
    (grid.getD r []).any fun cell => cell.isNone

/-- Steps 1–2 of `generateSmartShapes`: one guaranteed Tier-1 shape, two
weighted-tier shapes, then the Fisher-Yates shuffle (`i = 2` then `i = 1`).
`rand k` is the `k`-th `Math.random()` draw, in evaluation order: tier-1
index, id, color; tier draw, index, id, color (twice); two shuffle draws. -/
def gssHand (currentScore : Nat) (rand : Nat → ℚ) : List ShapeObj :=
  let w1 := (tierWeights currentScore).1
  let w2 := (tierWeights currentScore).2.1
  let s1 := createShape (rand 1) (rand 2)
    (SHAPES_TIER_1.getD (randFloor (rand 0) SHAPES_TIER_1.length) [])
  let tierA := getWeightedTier w1 w2 (rand 3)
  let s2 := createShape (rand 5) (rand 6)
    (tierA.getD (randFloor (rand 4) tierA.length) [])
  let tierB := getWeightedTier w1 w2 (rand 7)
  let s3 := createShape (rand 9) (rand 10)
    (tierB.getD (randFloor (rand 8) tierB.length) [])
  listSwap (listSwap [s1, s2, s3] 2 (randFloor (rand 11) 3)) 1 (randFloor (rand 12) 2)

/-- `generateSmartShapes` from the source: the shuffled hand of step 1–2,
then the step-3 safety check — if the board has an empty cell and no
generated shape fits anywhere, slot 0 is replaced by a fresh 1×1 shape
(draws 13 and 14). -/
def generateSmartShapes (currentScore : Nat) (grid : GridType) (rand : Nat → ℚ) :
    List ShapeObj :=
  let newShapes := gssHand currentScore rand
  if hasEmptyCellB grid then
    if newShapes.any fun s => canShapeFitAnywhere grid s.matrix then newShapes
    else newShapes.set 0 (createShape (rand 13) (rand 14) [[1]])
  else newShapes

theorem gssHand_length (currentScore : Nat) (rand : Nat → ℚ) :
    (gssHand currentScore rand).length = 3 := by
  simp [gssHand, listSwap, List.length_set]

theorem canFit_single {g : GridType} (hw : wfGrid g = true) {r c : Nat}
    (hr : r < BOARD_SIZE) (hc : c < BOARD_SIZE) (hcell : gridGet g r c = none) :
    canShapeFitAnywhere g [[1]] = true := by
  have hplace : canPlaceShape g [[1]] ⟨(r : Int), (c : Int)⟩ = true := by
    rw [canPlaceShape_iff]
    intro r' c' hr' hc' hv
    have hr0 : r' = 0 := by simpa using hr'
    have hc0 : c' = 0 := by
      subst hr0
      simpa using hc'
    subst hr0
    subst hc0
    constructor
    · simp only [isValidPos, Bool.and_eq_true, decide_eq_true_eq]
      refine ⟨⟨⟨?_, ?_⟩, ?_⟩, ?_⟩ <;> omega
    · have e1 : ((r : Int) + ((0 : Nat) : Int)).toNat = r := by omega
      have e2 : ((c : Int) + ((0 : Nat) : Int)).toNat = c := by omega
      rw [e1, e2]
      exact hcell
  unfold canShapeFitAnywhere
  rw [List.any_eq_true]
  refine ⟨r, List.mem_range.mpr hr, ?_⟩
  rw [List.any_eq_true]
  exact ⟨c, List.mem_range.mpr hc, hplace⟩

theorem hasEmptyCellB_of {g : GridType} (hw : wfGrid g = true) {r c : Nat}
    (hr : r < BOARD_SIZE) (hc : c < BOARD_SIZE) (hcell : gridGet g r c = none) :
    hasEmptyCellB g = true := by
  unfold hasEmptyCellB
  rw [List.any_eq_true]
  refine ⟨r, List.mem_range.mpr hr, ?_⟩
  rw [List.any_eq_true]
  have hlen := wfGrid_row_length hw hr
  have hcl : c < (g.getD r []).length := by omega
  refine ⟨(g.getD r []).getD c none, ?_, ?_⟩
  · rw [List.getD_eq_getElem _ _ hcl]
    exact List.getElem_mem hcl
  · exact Option.isNone_iff_eq_none.mpr hcell

/-- C1: for every score, every well-formed grid with at least one empty
cell, and every outcome of the random draws, the generated hand contains at
least one shape that fits somewhere on the grid — the generator never
returns a fully unplayable hand while an empty cell remains. -/
theorem generateSmartShapes_playable (currentScore : Nat) (grid : GridType)
    (rand : Nat → ℚ) (hw : wfGrid grid = true)
    (he : ∃ r, r < BOARD_SIZE ∧ ∃ c, c < BOARD_SIZE ∧ gridGet grid r c = none) :
    ∃ s ∈ generateSmartShapes currentScore grid rand,
      canShapeFitAnywhere grid s.matrix = true := by
  obtain ⟨r, hr, c, hc, hcell⟩ := he
  have hE : hasEmptyCellB grid = true := hasEmptyCellB_of hw hr hc hcell
  by_cases hfit :
      ((gssHand currentScore rand).any fun s => canShapeFitAnywhere grid s.matrix) = true
  · obtain ⟨s, hs, hok⟩ := List.any_eq_true.mp hfit
    refine ⟨s, ?_, hok⟩
    simp only [generateSmartShapes, hE, hfit, if_true]
    exact hs
  · have hfit' :
        ((gssHand currentScore rand).any fun s => canShapeFitAnywhere grid s.matrix) = false :=
      Bool.eq_false_iff.mpr hfit
    refine ⟨createShape (rand 13) (rand 14) [[1]], ?_, ?_⟩
    · simp only [generateSmartShapes, hE, hfit', Bool.false_eq_true, if_false, if_true]
      have hlen := gssHand_length currentScore rand
      cases hl : gssHand currentScore rand with
      | nil =>
        rw [hl] at hlen
        exact absurd hlen (by decide)
      | cons h t =>
        rw [List.set_cons_zero]
        exact List.mem_cons_self _ _
    · exact canFit_single hw hr hc hcell

/-- Witness for C1 at score 0, the empty grid, and the constant-zero draw
stream. -/
theorem generateSmartShapes_playable_witness :
    wfGrid createEmptyGrid = true ∧
      (∃ r, r < BOARD_SIZE ∧ ∃ c, c < BOARD_SIZE ∧ gridGet createEmptyGrid r c = none) ∧
      ∃ s ∈ generateSmartShapes 0 createEmptyGrid (fun _ => 0),
        canShapeFitAnywhere createEmptyGrid s.matrix = true :=
  ⟨by decide, ⟨0, by decide, 0, by decide, by decide⟩,
    generateSmartShapes_playable 0 createEmptyGrid (fun _ => 0) (by decide)
      ⟨0, by decide, 0, by decide, by decide⟩⟩
